import Mathlib

/-!
# Verification of `tuple.hpp`

A shallow embedding of the recursive head/tail `Tuple` class template of
`src/tuple.hpp` and of its value-level algorithms.

Conventions of the embedding.

* The element types of a C++ tuple are heterogeneous.  Here every element is a
  value of one universe `α` of element values (think of the disjoint sum of
  the element types in play); elements are opaque values with copy semantics.
* The arity `sizeof...(Types)` is part of the static type in C++.  Here it is
  the computed function `Tuple.arity`.
* Overload resolution and template instantiation happen at compile time.  A
  call for which the source offers no viable overload, or whose instantiation is
  ill-formed, is modelled by the result `none`; a call that compiles returns
  `some` of the value it computes.
* Which constructor of `Tuple` a construction selects depends on the value
  category and constness of the argument expression, so the arguments of the
  constructing functions (`MakeTuple`, `PushFrontF`, `PushBackF`) carry a
  `ValueCategory`.  It also depends on whether the element is itself a tuple of
  arity one; the parameter `oneTuple` tells which elements are.  Elements that
  are not tuples are taken to be of types that copy and move from every
  category (arithmetic types, strings).
* The embedding gives the tuple a call returns.  It does not follow the state
  of the objects of the caller after the call.
-/

namespace TupleSpec

universe u

/-- Tuple class template: `nil` is the explicit specialisation `Tuple<>`
(lines 63-68), `cons mHead mTail` is the partial specialisation
`Tuple<Head, Tail...>` with its two data members (lines 25-26). -/
inductive Tuple (α : Type u) where
  | nil : Tuple α
  | cons (mHead : α) (mTail : Tuple α) : Tuple α
  deriving DecidableEq, Repr

variable {α : Type u}

/-- Arity of a tuple, the value `sizeof...(Types)` of `Tuple<Types...>`. -/
def Tuple.arity : Tuple α → Nat
  | Tuple.nil => 0
  | Tuple.cons _ tl => tl.arity + 1

/-- Member `GetHead` (lines 44-45); `Tuple<>` declares no such member. -/
def Tuple.GetHead : Tuple α → Option α
  | Tuple.nil => none
  | Tuple.cons h _ => some h

/-- Member `GetTail` (lines 46-47); `Tuple<>` declares no such member. -/
def Tuple.GetTail : Tuple α → Option (Tuple α)
  | Tuple.nil => none
  | Tuple.cons _ tl => some tl

/-- Member `operator==` (lines 49-50, 55-60, 67).  `elemEq` is the equality of the
element types.  `Tuple<>` compares only with `Tuple<>` and answers `true`; the
member template of `Tuple<Head, Tail...>` accepts `Tuple<Head_, Tail_...>` only
when `sizeof...(Tail_) == sizeof...(Tail)` and returns
`mHead == other.mHead && mTail == other.mTail`. -/
def operatorEq (elemEq : α → α → Bool) : Tuple α → Tuple α → Option Bool
  | Tuple.nil, Tuple.nil => some true
  | Tuple.nil, Tuple.cons _ _ => none
  | Tuple.cons _ _, Tuple.nil => none
  | Tuple.cons h tl, Tuple.cons h2 tl2 =>
    if tl2.arity = tl.arity then
      match operatorEq elemEq tl tl2 with
      | some r => some (elemEq h h2 && r)
      | none => none
    else none

/-- Member `operator!=` (lines 51-52): declared only in `Tuple<Head, Tail...>`,
under the same arity guard as `operator==`, returning `!(*this == other)`.  The
specialisation `Tuple<>` (lines 63-68) declares no `operator!=`. -/
def operatorNe (elemEq : α → α → Bool) : Tuple α → Tuple α → Option Bool
  | Tuple.nil, _ => none
  | Tuple.cons _ _, Tuple.nil => none
  | Tuple.cons h tl, Tuple.cons h2 tl2 =>
    if tl2.arity = tl.arity then
      match operatorEq elemEq (Tuple.cons h tl) (Tuple.cons h2 tl2) with
      | some r => some (!r)
      | none => none
    else none

/-- Value category and constness of an argument expression of type `X`:
a non-const lvalue (`X&`), a const lvalue (`const X&`), a non-const rvalue
(`X&&`, a temporary or the result of a move) and a const rvalue
(`const X&&`). -/
inductive ValueCategory where
  | lvalue
  | constLvalue
  | rvalue
  | constRvalue
  deriving DecidableEq, Repr

/-- Argument of a call: an element value with the category of the expression
that denotes it. -/
structure Arg (α : Type u) where
  category : ValueCategory
  value : α

/-- Initialisation of a stored element of type `X` from an expression of the
same type `X` (the mem-initialisers `mHead(...)` of lines 30, 34, 38 and 42).
When `X` is a tuple `Tuple<Y>` of arity one, the candidates are the implicit
copy and move constructors of `Tuple<Y>` and the templates of lines 34, 38 and
42, since the guard of line 34 is `0 == 0` for one argument:

* a const lvalue selects the implicit copy constructor (same binding as lines 34
  and 38, non-template preferred);
* a non-const rvalue selects the implicit move constructor;
* a non-const lvalue selects line 34 with `Head_ = Tuple<Y>&` (the only binding
  that adds no `const`), whose body initialises `mHead`, a `Y`, from a
  `Tuple<Y>`: ill-formed;
* a const rvalue selects line 34 with `Head_ = const Tuple<Y>` (the only rvalue
  reference that binds), ill-formed in the same way.

For every other element type line 34 is not viable (tuples of another arity) or
the type is taken to copy and move from every category. -/
def initElement (oneTuple : α → Bool) (c : ValueCategory) (x : α) : Option α :=
  if oneTuple x then
    match c with
    | ValueCategory.constLvalue => some x
    | ValueCategory.rvalue => some x
    | ValueCategory.lvalue => none
    | ValueCategory.constRvalue => none
  else some x

/-- Category of `Utility::Move(other.mHead)` on line 42 when the member
`other.mHead` is declared with the type `NewType` deduced for an argument of
the given category: `X&` and `X` give `X&&`, `const X&` and `const X` give
`const X&&`. -/
def moveOf : ValueCategory → ValueCategory
  | ValueCategory.lvalue => ValueCategory.rvalue
  | ValueCategory.rvalue => ValueCategory.rvalue
  | ValueCategory.constLvalue => ValueCategory.constRvalue
  | ValueCategory.constRvalue => ValueCategory.constRvalue

/-- Factory `MakeTuple(args...)` (lines 103-107):
`Tuple<Decay<Types>...>(Forward<Types>(args)...)`.  With no argument it is
`Tuple<>`.  Otherwise the element-wise constructor of line 34 initialises
`mHead` from the first argument, forwarded with its category, and `mTail` from
the remaining ones in the same way.  For a single argument that is a tuple of
arity one the converting constructors of lines 38 (const lvalue) and 42
(non-const rvalue) are selected instead and rebuild the same element; for the
other two categories line 34 is selected, so the outcome is that of
`initElement` in all four cases. -/
def MakeTuple (oneTuple : α → Bool) : List (Arg α) → Option (Tuple α)
  | [] => some Tuple.nil
  | a :: rest =>
    match initElement oneTuple a.category a.value, MakeTuple oneTuple rest with
    | some h, some tl => some (Tuple.cons h tl)
    | _, _ => none

/-- Static member `TupleGet<N>::Get` (lines 110-143): `TupleGet<0>` returns the
head, `TupleGet<N>` calls `TupleGet<N - 1>` on the tail; every overload takes a
`Tuple<Head, Tail...>`, so none applies to `Tuple<>`. -/
def TupleGet : Nat → Tuple α → Option α
  | _, Tuple.nil => none
  | 0, Tuple.cons h _ => some h
  | n + 1, Tuple.cons _ tl => TupleGet n tl

/-- Function `Get<N>(tuple)` (lines 145-149). -/
def Get (N : Nat) (tuple : Tuple α) : Option α :=
  TupleGet N tuple

/-- Function `PushFrontF` (lines 195-199): constructs
`Type(Forward<NewType>(element), tuple)`.  The tuple is a const lvalue.  Line 30
takes both arguments by const reference.  Line 34 is viable only when the tuple
has arity one (`sizeof...(Tail_) == sizeof...(Tail)` with one trailing
argument); it then wins unless the element is a const lvalue too, and
initialises `mHead` from the element with its own category.  Through line 30
`mHead` is initialised from a const lvalue. -/
def PushFrontF (oneTuple : α → Bool) (tuple : Tuple α) (element : Arg α) :
    Option (Tuple α) :=
  if tuple.arity = 1 ∧ element.category ≠ ValueCategory.constLvalue then
    match initElement oneTuple element.category element.value with
    | some h => some (Tuple.cons h tuple)
    | none => none
  else
    match initElement oneTuple ValueCategory.constLvalue element.value with
    | some h => some (Tuple.cons h tuple)
    | none => none

/-- Function `PopFrontF` (lines 202-206): returns `tuple.GetTail()`. -/
def PopFrontF (tuple : Tuple α) : Option (Tuple α) :=
  tuple.GetTail

/-- Function `PushBackF` (lines 215-226).  The overload for `Tuple<>` (line 225)
builds `Tuple<NewType>(Forward<NewType>(element))`, where `NewType` keeps the
reference and the `const` of the argument, and returns it as
`Tuple<DecayT<NewType>>`; the stored element is therefore initialised from
`Utility::Move` of a member of type `NewType` (line 42), of category
`moveOf`, or, for a non-const rvalue, directly from the argument.  The general
overload (line 219) rebuilds
`(tuple.GetHead(), PushBackF(tuple.GetTail(), Forward<NewType>(element)))`: the
head comes from a const lvalue and the new tail from a non-const rvalue, which
always initialise.  For a non-const lvalue argument line 42 moves from the
object of the caller. -/
def PushBackF (oneTuple : α → Bool) : Tuple α → Arg α → Option (Tuple α)
  | Tuple.nil, element =>
    match initElement oneTuple (moveOf element.category) element.value with
    | some h => some (Tuple.cons h Tuple.nil)
    | none => none
  | Tuple.cons h tl, element =>
    match PushBackF oneTuple tl element with
    | some r => some (Tuple.cons h r)
    | none => none

/-- Function `ReverseF` (lines 229-238):
`PushBackF(ReverseF(tuple.GetTail()), tuple.GetHead())`, where
`tuple.GetHead()` is a `const Head&`, a const lvalue; the empty tuple is
returned as it is. -/
def ReverseF (oneTuple : α → Bool) : Tuple α → Option (Tuple α)
  | Tuple.nil => some Tuple.nil
  | Tuple.cons h tl =>
    match ReverseF oneTuple tl with
    | some r => PushBackF oneTuple r ⟨ValueCategory.constLvalue, h⟩
    | none => none

/-- Modelled from the spec: the alias `MakeIndexListT<n>` lives in
`traits/integer_sequence.hpp`, which is absent; section 4.4 of the spec says the
index-permutation strategy computes the descending index sequence
`[n-1, n-2, ..., 0]`. -/
def MakeIndexListT : Nat → List Nat
  | 0 => []
  | n + 1 => n :: MakeIndexListT n

/-- Pack expansion `Get<indices>(tuple)...` of line 247: one `Get` per index, in
the order of the index list; the expansion is well-formed only when every
`Get` is. -/
def GetPack (tuple : Tuple α) : List Nat → Option (List α)
  | [] => some []
  | i :: rest =>
    match Get i tuple, GetPack tuple rest with
    | some a, some as => some (a :: as)
    | _, _ => none

/-- Function `IndexReverseImpl` (lines 244-248):
`MakeTuple(Get<indices>(tuple)...)`.  `Get` returns by value, so every argument
of `MakeTuple` is a non-const rvalue. -/
def IndexReverseImpl (oneTuple : α → Bool) (tuple : Tuple α) (indices : List Nat) :
    Option (Tuple α) :=
  match GetPack tuple indices with
  | some values => MakeTuple oneTuple (values.map (fun v => ⟨ValueCategory.rvalue, v⟩))
  | none => none

/-- Function `IndexReverseF` (lines 250-254):
`IndexReverseImpl(tuple, MakeIndexListT<sizeof...(Types)>())`. -/
def IndexReverseF (oneTuple : α → Bool) (tuple : Tuple α) : Option (Tuple α) :=
  IndexReverseImpl oneTuple tuple (MakeIndexListT tuple.arity)

/-- Function `PopBackF` (lines 257-261):
`ReverseF(PopFrontF(ReverseF(tuple)))`. -/
def PopBackF (oneTuple : α → Bool) (tuple : Tuple α) : Option (Tuple α) :=
  match ReverseF oneTuple tuple with
  | some r =>
    match PopFrontF r with
    | some p => ReverseF oneTuple p
    | none => none
  | none => none

/-- Modelled from the spec: `Traits::TrueType` lives in `traits/traits.hpp`,
which is absent; the table of section 4.3 gives `IsEmpty` of `Tuple<>` the value
true (line 165 spells it `Value = true`). -/
def TrueTypeValue : Bool := true

/-- Modelled from the spec: `Traits::FalseType` lives in `traits/traits.hpp`,
which is absent; the table of section 4.3 gives `IsEmpty` of a tuple type with
an element type the value false (line 159 spells it `Value = false`). -/
def FalseTypeValue : Bool := false

/-- Type-level `IsEmpty<Tuple<Types...>>` (lines 156-166), over the list `Types`
of element types: the explicit specialisation for `Tuple<>` derives from
`Traits::TrueType` and takes precedence; every other `Tuple<Types...>` selects
the partial specialisation, which derives from `Traits::FalseType`. -/
def IsEmpty {τ : Type u} : List τ → Bool
  | [] => TrueTypeValue
  | _ => FalseTypeValue

/-- Output streams are told apart by a number. -/
abbrev StreamId := Nat

/-- Stream `std::cout`, the standard output of the process. -/
def stdCout : StreamId := 0

/-- Text written so far to each output stream. -/
abbrev Streams := StreamId → String

/-- Insertion `stream << text`: appends the text to that stream and leaves the
other streams as they are. -/
def put (stream : StreamId) (text : String) (st : Streams) : Streams :=
  fun s => if s = stream then st s ++ text else st s

/-- Function `PrintTuple` (lines 70-92).  `render` is the text that the
`operator<<` of an element inserts.  The template for `Tuple<Head, Tail...>`
writes to `os`: the opening `"( "` when `first`, the head, and `", "` when
`sizeof...(Tail) != 0`, then prints the tail with `first = false`.  The overload
for `Tuple<>` writes to `std::cout`: `"( "` when `first`, then `" )"`. -/
def PrintTuple (render : α → String) (os : StreamId) :
    Tuple α → Bool → Streams → Streams
  | Tuple.nil, first, st =>
    let st1 := if first then put stdCout "( " st else st
    put stdCout " )" st1
  | Tuple.cons h tl, first, st =>
    let st1 := if first then put os "( " st else st
    let st2 := put os (render h) st1
    let st3 := if tl.arity ≠ 0 then put os ", " st2 else st2
    PrintTuple render os tl false st3

/-- Function `operator<<` for tuples (lines 94-100): `PrintTuple(os, tuple)` with
the default `first = true`. -/
def operatorShl (render : α → String) (os : StreamId) (tuple : Tuple α)
    (st : Streams) : Streams :=
  PrintTuple render os tuple true st

/-- Elements of a tuple from head to end, used only to state and prove
properties. -/
def Tuple.toList : Tuple α → List α
  | Tuple.nil => []
  | Tuple.cons h tl => h :: tl.toList

/-- Tuple that holds the listed elements from head to end, used only to write
down tuples and to state and prove properties. -/
def Tuple.ofList : List α → Tuple α
  | [] => Tuple.nil
  | a :: rest => Tuple.cons a (Tuple.ofList rest)

/-- Element values of the concrete evaluations: an `int`, or a tuple of
`int`s such as the result of `MakeTuple(1)`. -/
inductive Element where
  | int (n : Int)
  | tuple (t : Tuple Int)
  deriving DecidableEq, Repr

/-- Whether an `Element` is a tuple of arity one. -/
def Element.oneTuple : Element → Bool
  | Element.int _ => false
  | Element.tuple t => decide (t.arity = 1)

/-! ## Auxiliary lemmas -/

theorem toList_ofList (es : List α) : (Tuple.ofList es).toList = es := by
  induction es with
  | nil => rfl
  | cons a rest ih => simp [Tuple.ofList, Tuple.toList, ih]

theorem ofList_toList (t : Tuple α) : Tuple.ofList t.toList = t := by
  induction t with
  | nil => rfl
  | cons h tl ih => simp [Tuple.ofList, Tuple.toList, ih]

theorem arity_eq_length (t : Tuple α) : t.arity = t.toList.length := by
  induction t with
  | nil => rfl
  | cons h tl ih => simp [Tuple.arity, Tuple.toList, ih]

theorem Get_eq_getElem? (t : Tuple α) (i : Nat) : Get i t = t.toList[i]? := by
  induction t generalizing i with
  | nil => cases i <;> simp [Get, TupleGet, Tuple.toList]
  | cons h tl ih =>
    cases i with
    | zero => simp [Get, TupleGet, Tuple.toList]
    | succ n =>
      have h2 := ih n
      simp only [Get] at h2
      simp [Get, TupleGet, Tuple.toList, h2]

theorem take_succ_reverse (l : List α) (n : Nat) (hn : n < l.length) :
    (l.take (n + 1)).reverse = l[n] :: (l.take n).reverse := by
  rw [List.take_succ, List.getElem?_eq_getElem hn]
  simp

theorem GetPack_MakeIndexListT (t : Tuple α) (n : Nat) (hn : n ≤ t.arity) :
    GetPack t (MakeIndexListT n) = some ((t.toList.take n).reverse) := by
  induction n with
  | zero => simp [MakeIndexListT, GetPack]
  | succ k ih =>
    have hk : k < t.toList.length := by
      rw [← arity_eq_length]; omega
    have hget : Get k t = some t.toList[k] := by
      rw [Get_eq_getElem?, List.getElem?_eq_getElem hk]
    simp only [MakeIndexListT, GetPack, hget, ih (by omega)]
    rw [take_succ_reverse t.toList k hk]

theorem Get_some_of_lt (t : Tuple α) (i : Nat) (hi : i < t.arity) :
    ∃ a, Get i t = some a := by
  induction t generalizing i with
  | nil => simp [Tuple.arity] at hi
  | cons h tl ih =>
    cases i with
    | zero => exact ⟨h, rfl⟩
    | succ n => exact ih n (by simpa [Tuple.arity] using hi)

theorem Get_none_of_le (t : Tuple α) (i : Nat) (hi : t.arity ≤ i) : Get i t = none := by
  induction t generalizing i with
  | nil => cases i <;> rfl
  | cons h tl ih =>
    cases i with
    | zero => simp [Tuple.arity] at hi
    | succ n => exact ih n (by simpa [Tuple.arity] using hi)

theorem initElement_rvalue (oneTuple : α → Bool) (x : α) :
    initElement oneTuple ValueCategory.rvalue x = some x := by
  unfold initElement
  split <;> rfl

theorem initElement_constLvalue (oneTuple : α → Bool) (x : α) :
    initElement oneTuple ValueCategory.constLvalue x = some x := by
  unfold initElement
  split <;> rfl

theorem initElement_of_not_oneTuple (oneTuple : α → Bool) (c : ValueCategory) (x : α)
    (hx : oneTuple x = false) : initElement oneTuple c x = some x := by
  simp [initElement, hx]

theorem initElement_constRvalue_of_oneTuple (oneTuple : α → Bool) (x : α)
    (hx : oneTuple x = true) :
    initElement oneTuple ValueCategory.constRvalue x = none := by
  simp [initElement, hx]

theorem MakeTuple_eq_some (oneTuple : α → Bool) (args : List (Arg α))
    (hargs : ∀ a ∈ args, initElement oneTuple a.category a.value = some a.value) :
    MakeTuple oneTuple args = some (Tuple.ofList (args.map Arg.value)) := by
  induction args with
  | nil => rfl
  | cons a rest ih =>
    have h1 := hargs a (List.mem_cons_self a rest)
    have h2 := ih (fun b hb => hargs b (List.mem_cons_of_mem a hb))
    simp [MakeTuple, h1, h2, Tuple.ofList]

theorem MakeTuple_rvalue (oneTuple : α → Bool) (values : List α) :
    MakeTuple oneTuple (values.map (fun v => ⟨ValueCategory.rvalue, v⟩))
      = some (Tuple.ofList values) := by
  induction values with
  | nil => rfl
  | cons v rest ih => simp [MakeTuple, initElement_rvalue, ih, Tuple.ofList]

theorem IndexReverseF_eq (oneTuple : α → Bool) (t : Tuple α) :
    IndexReverseF oneTuple t = some (Tuple.ofList t.toList.reverse) := by
  unfold IndexReverseF IndexReverseImpl
  rw [GetPack_MakeIndexListT t t.arity (Nat.le_refl _), arity_eq_length, List.take_length]
  exact MakeTuple_rvalue oneTuple t.toList.reverse

theorem PushBackF_eq (oneTuple : α → Bool) (t : Tuple α) (element : Arg α) :
    PushBackF oneTuple t element
      = (initElement oneTuple (moveOf element.category) element.value).map
          (fun h => Tuple.ofList (t.toList ++ [h])) := by
  induction t with
  | nil =>
    simp only [PushBackF, Tuple.toList, List.nil_append, Tuple.ofList]
    cases initElement oneTuple (moveOf element.category) element.value <;> rfl
  | cons h tl ih =>
    simp only [PushBackF, ih, Tuple.toList, List.cons_append, Tuple.ofList]
    cases initElement oneTuple (moveOf element.category) element.value <;> rfl

theorem ReverseF_eq_some (oneTuple : α → Bool) (t : Tuple α)
    (ht : ∀ x ∈ t.toList, oneTuple x = false) :
    ReverseF oneTuple t = some (Tuple.ofList t.toList.reverse) := by
  induction t with
  | nil => rfl
  | cons h tl ih =>
    have h1 : oneTuple h = false := ht h (by simp [Tuple.toList])
    have h2 := ih (fun x hx => ht x (by simp [Tuple.toList, hx]))
    simp [ReverseF, h2, PushBackF_eq, initElement_of_not_oneTuple oneTuple _ h h1,
      toList_ofList, Tuple.toList]

theorem ReverseF_eq_none (oneTuple : α → Bool) (t : Tuple α)
    (ht : ∃ x ∈ t.toList, oneTuple x = true) : ReverseF oneTuple t = none := by
  induction t with
  | nil =>
    obtain ⟨x, hx, _⟩ := ht
    simp [Tuple.toList] at hx
  | cons h tl ih =>
    obtain ⟨x, hx, hone⟩ := ht
    simp only [Tuple.toList, List.mem_cons] at hx
    simp only [ReverseF]
    cases hr : ReverseF oneTuple tl with
    | none => rfl
    | some r =>
      rcases hx with hx | hx
      · subst hx
        simp [PushBackF_eq, moveOf, initElement_constRvalue_of_oneTuple oneTuple x hone]
      · rw [ih ⟨x, hx, hone⟩] at hr
        exact Option.noConfusion hr

theorem PushFrontF_eq_some (oneTuple : α → Bool) (t : Tuple α) (element : Arg α)
    (helem : initElement oneTuple element.category element.value = some element.value) :
    PushFrontF oneTuple t element = some (Tuple.cons element.value t) := by
  unfold PushFrontF
  split
  · simp [helem]
  · simp [initElement_constLvalue]

theorem PopBackF_eq_some (oneTuple : α → Bool) (t : Tuple α) (hne : t ≠ Tuple.nil)
    (ht : ∀ x ∈ t.toList, oneTuple x = false) :
    PopBackF oneTuple t = some (Tuple.ofList t.toList.dropLast) := by
  have hl : t.toList ≠ [] := by
    cases t with
    | nil => exact absurd rfl hne
    | cons h tl => simp [Tuple.toList]
  obtain ⟨x, rest, hrev⟩ := List.exists_cons_of_ne_nil (by simpa using hl : t.toList.reverse ≠ [])
  have hrest : rest.reverse = t.toList.dropLast := by
    have h3 : t.toList = rest.reverse ++ [x] := by
      have := congrArg List.reverse hrev
      simpa using this
    rw [h3]
    simp
  have hmem : ∀ y ∈ rest, oneTuple y = false := by
    intro y hy
    apply ht y
    have : y ∈ t.toList.reverse := by rw [hrev]; simp [hy]
    simpa using this
  unfold PopBackF
  rw [ReverseF_eq_some oneTuple t ht, hrev]
  simp only [Tuple.ofList, PopFrontF, Tuple.GetTail]
  rw [ReverseF_eq_some oneTuple (Tuple.ofList rest) (by simpa [toList_ofList] using hmem),
    toList_ofList, hrest]

theorem Get_MakeTuple_of_initElement (oneTuple : α → Bool) (args : List (Arg α))
    (hargs : ∀ a ∈ args, initElement oneTuple a.category a.value = some a.value)
    (i : Nat) (hi : i < args.length) :
    (MakeTuple oneTuple args).bind (Get i) = some (args.get ⟨i, hi⟩).value := by
  rw [MakeTuple_eq_some oneTuple args hargs, Option.some_bind, Get_eq_getElem?,
    toList_ofList]
  simp [hi]

theorem ReverseF_ReverseF_of_no_oneTuple (oneTuple : α → Bool) (t : Tuple α)
    (ht : ∀ x ∈ t.toList, oneTuple x = false) :
    (ReverseF oneTuple t).bind (ReverseF oneTuple) = some t := by
  rw [ReverseF_eq_some oneTuple t ht, Option.some_bind,
    ReverseF_eq_some oneTuple _ (by simpa [toList_ofList] using ht), toList_ofList,
    List.reverse_reverse, ofList_toList]

theorem PopBackF_PushBackF_of_no_oneTuple (oneTuple : α → Bool) (t : Tuple α)
    (element : Arg α) (ht : ∀ x ∈ t.toList, oneTuple x = false)
    (hx : oneTuple element.value = false) :
    (PushBackF oneTuple t element).bind (PopBackF oneTuple) = some t := by
  rw [PushBackF_eq, initElement_of_not_oneTuple oneTuple _ _ hx]
  simp only [Option.map_some', Option.some_bind]
  have hne : Tuple.ofList (t.toList ++ [element.value]) ≠ Tuple.nil := by
    intro hc
    have := congrArg Tuple.toList hc
    simp [toList_ofList, Tuple.toList] at this
  have hall : ∀ y ∈ (Tuple.ofList (t.toList ++ [element.value])).toList,
      oneTuple y = false := by
    intro y hy
    rw [toList_ofList] at hy
    rcases List.mem_append.mp hy with hy | hy
    · exact ht y hy
    · simp at hy
      rw [hy]; exact hx
  rw [PopBackF_eq_some oneTuple _ hne hall, toList_ofList]
  simp [ofList_toList]

/-- Claim C1. The positional round trip fails for an argument that is a tuple of
arity one named by a non-const lvalue: for `auto e = MakeTuple(1);` the call
`MakeTuple(e)` selects the constructor of line 34 to copy `e` and is ill-formed,
so `Get<0>(MakeTuple(e))` yields nothing, while `Get<0>(MakeTuple(MakeTuple(1)))`
with the temporary yields the element. -/
theorem MakeTuple_lvalue_oneTuple_rejected :
    MakeTuple Element.oneTuple
        [⟨ValueCategory.lvalue, Element.tuple (Tuple.ofList [1])⟩] = none ∧
    (MakeTuple Element.oneTuple
        [⟨ValueCategory.lvalue, Element.tuple (Tuple.ofList [1])⟩]).bind (Get 0)
      ≠ some (Element.tuple (Tuple.ofList [1])) ∧
    (MakeTuple Element.oneTuple
        [⟨ValueCategory.rvalue, Element.tuple (Tuple.ofList [1])⟩]).bind (Get 0)
      = some (Element.tuple (Tuple.ofList [1])) := by
  decide

/-- Claim C2. The back push/pop inverse fails for a tuple with an element that is
a tuple of arity one: for `t = MakeTuple(MakeTuple(1))` and `x = 2`,
`PushBackF(t, 2)` is `(MakeTuple(1), 2)` but `PopBackF` of it is ill-formed,
since its `ReverseF` is; for `t = MakeTuple(1)` of `int`s the round trip
returns `t`. -/
theorem PopBackF_PushBackF_oneTuple_rejected :
    PushBackF Element.oneTuple (Tuple.ofList [Element.tuple (Tuple.ofList [1])])
        ⟨ValueCategory.rvalue, Element.int 2⟩
      = some (Tuple.ofList [Element.tuple (Tuple.ofList [1]), Element.int 2]) ∧
    (PushBackF Element.oneTuple (Tuple.ofList [Element.tuple (Tuple.ofList [1])])
        ⟨ValueCategory.rvalue, Element.int 2⟩).bind (PopBackF Element.oneTuple) = none ∧
    (PushBackF Element.oneTuple (Tuple.ofList [Element.int 1])
        ⟨ValueCategory.rvalue, Element.int 2⟩).bind (PopBackF Element.oneTuple)
      = some (Tuple.ofList [Element.int 1]) := by
  decide

/-- Claim C3. The reversal involution fails for a tuple with an element that is a
tuple of arity one: `ReverseF(MakeTuple(MakeTuple(1), MakeTuple(2)))` is
ill-formed, so reversing twice does not give the tuple back, while for
`MakeTuple(1, 2)` it does. -/
theorem ReverseF_oneTuple_rejected :
    ReverseF Element.oneTuple
        (Tuple.ofList [Element.tuple (Tuple.ofList [1]), Element.tuple (Tuple.ofList [2])])
      = none ∧
    (ReverseF Element.oneTuple
        (Tuple.ofList [Element.tuple (Tuple.ofList [1]),
          Element.tuple (Tuple.ofList [2])])).bind (ReverseF Element.oneTuple)
      ≠ some (Tuple.ofList
          [Element.tuple (Tuple.ofList [1]), Element.tuple (Tuple.ofList [2])]) ∧
    (ReverseF Element.oneTuple
        (Tuple.ofList [Element.int 1, Element.int 2])).bind (ReverseF Element.oneTuple)
      = some (Tuple.ofList [Element.int 1, Element.int 2]) := by
  decide

/-- Claim C4. The two reversal strategies disagree on a tuple with an element
that is a tuple of arity one: for `t = MakeTuple(7, MakeTuple(1))`,
`IndexReverseF(t)` returns `(MakeTuple(1), 7)` while `ReverseF(t)` is
ill-formed; for `MakeTuple(7, 8)` both return `(8, 7)`. -/
theorem ReverseF_IndexReverseF_disagree :
    IndexReverseF Element.oneTuple
        (Tuple.ofList [Element.int 7, Element.tuple (Tuple.ofList [1])])
      = some (Tuple.ofList [Element.tuple (Tuple.ofList [1]), Element.int 7]) ∧
    ReverseF Element.oneTuple
        (Tuple.ofList [Element.int 7, Element.tuple (Tuple.ofList [1])]) = none ∧
    IndexReverseF Element.oneTuple (Tuple.ofList [Element.int 7, Element.int 8])
      = some (Tuple.ofList [Element.int 8, Element.int 7]) ∧
    ReverseF Element.oneTuple (Tuple.ofList [Element.int 7, Element.int 8])
      = some (Tuple.ofList [Element.int 8, Element.int 7]) := by
  decide

/-- Claim C5. Index-reversal involution: for every tuple `t`,
`IndexReverseF(IndexReverseF(t))` compiles and returns `t`. -/
theorem IndexReverseF_involution (oneTuple : α → Bool) (t : Tuple α) :
    (IndexReverseF oneTuple t).bind (IndexReverseF oneTuple) = some t := by
  rw [IndexReverseF_eq, Option.some_bind, IndexReverseF_eq, toList_ofList,
    List.reverse_reverse, ofList_toList]

/-- Claim C6. The front push/pop inverse fails for a tuple of arity one and an
element that is a tuple of arity one named by a non-const lvalue: for
`t = MakeTuple(5)` and `auto x = MakeTuple(1);`, `PushFrontF(t, x)` selects the
constructor of line 34 and is ill-formed, so `PopFrontF` of it does not return
`t`; with `x` a const lvalue it does. -/
theorem PopFrontF_PushFrontF_oneTuple_rejected :
    PushFrontF Element.oneTuple (Tuple.ofList [Element.int 5])
        ⟨ValueCategory.lvalue, Element.tuple (Tuple.ofList [1])⟩ = none ∧
    (PushFrontF Element.oneTuple (Tuple.ofList [Element.int 5])
        ⟨ValueCategory.lvalue, Element.tuple (Tuple.ofList [1])⟩).bind PopFrontF
      ≠ some (Tuple.ofList [Element.int 5]) ∧
    (PushFrontF Element.oneTuple (Tuple.ofList [Element.int 5])
        ⟨ValueCategory.constLvalue, Element.tuple (Tuple.ofList [1])⟩).bind PopFrontF
      = some (Tuple.ofList [Element.int 5]) := by
  decide

/-- Claim C7. Equality is the conjunction of pairwise element equality: for two
tuples `t` and `u` of the same arity, `t == u` compiles to a Boolean `r`, and
`r` is true exactly when `Get<i>(t) == Get<i>(u)` holds for every `i` below the
arity; for arity 0 the result is true. -/
theorem operatorEq_iff_pairwise (elemEq : α → α → Bool) (t u : Tuple α)
    (h : t.arity = u.arity) :
    ∃ r, operatorEq elemEq t u = some r ∧
      (r = true ↔ ∀ i, i < t.arity →
        ∃ a b, Get i t = some a ∧ Get i u = some b ∧ elemEq a b = true) ∧
      (t.arity = 0 → r = true) := by
  induction t generalizing u with
  | nil =>
    cases u with
    | nil => exact ⟨true, rfl, by simp [Tuple.arity], fun _ => rfl⟩
    | cons y tl2 => simp [Tuple.arity] at h
  | cons x tl ih =>
    cases u with
    | nil => simp [Tuple.arity] at h
    | cons y tl2 =>
      have h2 : tl.arity = tl2.arity := by simpa [Tuple.arity] using h
      obtain ⟨r, hr, hiff, _⟩ := ih tl2 h2
      refine ⟨(elemEq x y && r), ?_, ?_, ?_⟩
      · simp [operatorEq, h2, hr]
      · rw [Bool.and_eq_true, hiff]
        constructor
        · rintro ⟨hxy, hall⟩ i hi
          cases i with
          | zero => exact ⟨x, y, rfl, rfl, hxy⟩
          | succ n => exact hall n (by simpa [Tuple.arity] using hi)
        · intro hall
          refine ⟨?_, fun i hi => ?_⟩
          · obtain ⟨a, b, ha, hb, hab⟩ := hall 0 (by simp [Tuple.arity])
            simp only [Get, TupleGet, Option.some.injEq] at ha hb
            subst ha hb
            exact hab
          · exact hall (i + 1) (by simpa [Tuple.arity] using hi)
      · intro h0
        simp [Tuple.arity] at h0

theorem operatorEq_iff_pairwise_witness :
    (Tuple.ofList [1, 2]).arity = (Tuple.ofList [1, 3]).arity ∧
    ∃ r, operatorEq (fun a b => decide (a = b)) (Tuple.ofList [1, 2]) (Tuple.ofList [1, 3]) = some r ∧
      (r = true ↔ ∀ i, i < (Tuple.ofList [1, 2]).arity →
        ∃ a b, Get i (Tuple.ofList [1, 2]) = some a ∧ Get i (Tuple.ofList [1, 3]) = some b ∧
          (fun a b => decide (a = b)) a b = true) ∧
      ((Tuple.ofList [1, 2]).arity = 0 → r = true) :=
  ⟨by decide, operatorEq_iff_pairwise (fun a b => decide (a = b)) (Tuple.ofList [1, 2])
    (Tuple.ofList [1, 3]) (by decide)⟩

/-- Claim C8. Equality is reflexive: when the equality of the element types is
reflexive, `t == t` compiles and is true for every tuple `t` of any arity. -/
theorem operatorEq_refl (elemEq : α → α → Bool) (hrefl : ∀ a, elemEq a a = true)
    (t : Tuple α) : operatorEq elemEq t t = some true := by
  induction t with
  | nil => rfl
  | cons h tl ih => simp [operatorEq, ih, hrefl]

theorem operatorEq_refl_witness :
    (∀ a : Nat, (fun a b => decide (a = b)) a a = true) ∧
    operatorEq (fun a b => decide (a = b)) (Tuple.ofList [1, 2, 3]) (Tuple.ofList [1, 2, 3])
      = some true :=
  ⟨by simp, operatorEq_refl (fun a b => decide (a = b)) (by simp) (Tuple.ofList [1, 2, 3])⟩

/-- Claim C9. At arity zero the inequality operator is missing: `Tuple<>`
declares `operator==`, which answers true, but no `operator!=`, so
`Tuple<>() != Tuple<>()` has no candidate instead of yielding
`!(Tuple<>() == Tuple<>())`, which would be false. -/
theorem operatorNe_nil_nil (elemEq : α → α → Bool) :
    operatorEq elemEq Tuple.nil Tuple.nil = some true ∧
    operatorNe elemEq Tuple.nil Tuple.nil = none ∧
    operatorNe elemEq Tuple.nil Tuple.nil ≠
      (operatorEq elemEq Tuple.nil Tuple.nil).map (fun r => !r) := by
  refine ⟨rfl, rfl, ?_⟩
  simp [operatorEq, operatorNe]

/-- Claim C10. Tuples of unequal arity are never considered equal: when the
arities of `t` and `u` differ, `t == u` has no valid instantiation, and so it
does not yield true. -/
theorem operatorEq_arity_mismatch (elemEq : α → α → Bool) (t u : Tuple α)
    (h : t.arity ≠ u.arity) :
    operatorEq elemEq t u = none ∧ operatorEq elemEq t u ≠ some true := by
  have hnone : operatorEq elemEq t u = none := by
    cases t with
    | nil =>
      cases u with
      | nil => exact absurd rfl h
      | cons y tl2 => rfl
    | cons x tl =>
      cases u with
      | nil => rfl
      | cons y tl2 =>
        have h2 : ¬ tl2.arity = tl.arity := by
          intro hc
          exact h (by simp [Tuple.arity, hc])
        simp [operatorEq, h2]
  exact ⟨hnone, by simp [hnone]⟩

theorem operatorEq_arity_mismatch_witness :
    (Tuple.ofList [1, 2]).arity ≠ (Tuple.ofList [1, 2, 3]).arity ∧
    operatorEq (fun a b => decide (a = b)) (Tuple.ofList [1, 2]) (Tuple.ofList [1, 2, 3]) = none ∧
    operatorEq (fun a b => decide (a = b)) (Tuple.ofList [1, 2]) (Tuple.ofList [1, 2, 3])
      ≠ some true :=
  ⟨by decide, operatorEq_arity_mismatch (fun a b => decide (a = b)) (Tuple.ofList [1, 2])
    (Tuple.ofList [1, 2, 3]) (by decide)⟩

/-- Claim C11. Out-of-range indexed access is rejected: for a tuple of arity `n`
and an index `N`, `Get<N>` yields an element exactly when `N < n`, and it has no
applicable case (no element, no default) exactly when `N >= n`. -/
theorem Get_defined_iff_lt (t : Tuple α) (N : Nat) :
    ((∃ a, Get N t = some a) ↔ N < t.arity) ∧ (Get N t = none ↔ t.arity ≤ N) := by
  constructor
  · constructor
    · rintro ⟨a, ha⟩
      by_contra hlt
      rw [Get_none_of_le t N (by omega)] at ha
      exact Option.noConfusion ha
    · exact Get_some_of_lt t N
  · constructor
    · intro hnone
      by_contra hle
      obtain ⟨a, ha⟩ := Get_some_of_lt t N (by omega)
      rw [hnone] at ha
      exact Option.noConfusion ha
    · exact Get_none_of_le t N

/-- Claim C12. Rendering a non-empty tuple to a sink other than `std::cout`
loses the closing delimiter: for `os << MakeTuple("1", "a", "3.14")` with `os`
the stream number 1 and all streams empty before, `os` receives
`"( 1, a, 3.14"` and `std::cout` receives `" )"`, so the text on `os` is not
`"( 1, a, 3.14 )"`. -/
theorem operatorShl_nonempty_on_other_sink :
    MakeTuple (fun _ => false)
        [⟨ValueCategory.rvalue, "1"⟩, ⟨ValueCategory.rvalue, "a"⟩,
          ⟨ValueCategory.rvalue, "3.14"⟩]
      = some (Tuple.ofList ["1", "a", "3.14"]) ∧
    operatorShl (fun e => e) 1 (Tuple.ofList ["1", "a", "3.14"]) (fun _ => "") 1
      = "( 1, a, 3.14" ∧
    operatorShl (fun e => e) 1 (Tuple.ofList ["1", "a", "3.14"]) (fun _ => "") stdCout
      = " )" ∧
    operatorShl (fun e => e) 1 (Tuple.ofList ["1", "a", "3.14"]) (fun _ => "") 1
      ≠ "( 1, a, 3.14 )" := by
  decide

/-- Claim C13. Rendering the empty tuple does not give `"( )"`: with all streams
empty before, `std::cout << Tuple<>()` leaves the four characters `"(  )"` on
`std::cout`, and `os << Tuple<>()` for the stream number 1 leaves `os` empty and
puts the same four characters on `std::cout`. -/
theorem operatorShl_empty_tuple (render : α → String) :
    operatorShl render stdCout Tuple.nil (fun _ => "") stdCout = "(  )" ∧
    operatorShl render stdCout Tuple.nil (fun _ => "") stdCout ≠ "( )" ∧
    operatorShl render 1 Tuple.nil (fun _ => "") 1 = "" ∧
    operatorShl render 1 Tuple.nil (fun _ => "") stdCout = "(  )" := by
  have h1 : operatorShl render stdCout Tuple.nil (fun _ => "") stdCout = "(  )" := rfl
  refine ⟨h1, ?_, rfl, rfl⟩
  rw [h1]
  decide

/-- Claim C14. `PushBackF` does not append an element that is a tuple of arity one
named by a const lvalue: for `t = MakeTuple(1, 2)` and
`const auto x = MakeTuple(3);`, `PushBackF(t, x)` is ill-formed (line 225 builds
`Tuple<const X&>`, line 42 moves from it, line 34 is selected for the const
rvalue), while with the temporary `MakeTuple(3)` it returns
`(1, 2, MakeTuple(3))`. -/
theorem PushBackF_constLvalue_oneTuple_rejected :
    PushBackF Element.oneTuple (Tuple.ofList [Element.int 1, Element.int 2])
        ⟨ValueCategory.constLvalue, Element.tuple (Tuple.ofList [3])⟩ = none ∧
    (PushBackF Element.oneTuple (Tuple.ofList [Element.int 1, Element.int 2])
        ⟨ValueCategory.constLvalue, Element.tuple (Tuple.ofList [3])⟩).bind (Get 2)
      ≠ some (Element.tuple (Tuple.ofList [3])) ∧
    PushBackF Element.oneTuple (Tuple.ofList [Element.int 1, Element.int 2])
        ⟨ValueCategory.rvalue, Element.tuple (Tuple.ofList [3])⟩
      = some (Tuple.ofList
          [Element.int 1, Element.int 2, Element.tuple (Tuple.ofList [3])]) := by
  decide

/-- Claim C15. `PushFrontF` does not prepend an element that is a tuple of arity
one named by a non-const lvalue onto a tuple of arity one: for
`t = MakeTuple(8)` and `auto x = MakeTuple(4);`, `PushFrontF(t, x)` is
ill-formed, so it has no head, while onto `MakeTuple(8, 9)` the same `x` is
prepended. -/
theorem PushFrontF_lvalue_oneTuple_rejected :
    PushFrontF Element.oneTuple (Tuple.ofList [Element.int 8])
        ⟨ValueCategory.lvalue, Element.tuple (Tuple.ofList [4])⟩ = none ∧
    (PushFrontF Element.oneTuple (Tuple.ofList [Element.int 8])
        ⟨ValueCategory.lvalue, Element.tuple (Tuple.ofList [4])⟩).bind (Get 0)
      ≠ some (Element.tuple (Tuple.ofList [4])) ∧
    PushFrontF Element.oneTuple (Tuple.ofList [Element.int 8, Element.int 9])
        ⟨ValueCategory.lvalue, Element.tuple (Tuple.ofList [4])⟩
      = some (Tuple.ofList
          [Element.tuple (Tuple.ofList [4]), Element.int 8, Element.int 9]) := by
  decide

/-- Claim C16. `ReverseF` does not reverse a tuple with an element that is a tuple
of arity one: `ReverseF(MakeTuple(1, MakeTuple(2), 3))` is ill-formed, so
`Get<0>` of it yields nothing, while `ReverseF(MakeTuple(1, MakeTuple(2, 5), 3))`
is `(3, MakeTuple(2, 5), 1)`. -/
theorem ReverseF_positions_oneTuple_rejected :
    ReverseF Element.oneTuple
        (Tuple.ofList [Element.int 1, Element.tuple (Tuple.ofList [2]), Element.int 3])
      = none ∧
    (ReverseF Element.oneTuple
        (Tuple.ofList [Element.int 1, Element.tuple (Tuple.ofList [2]),
          Element.int 3])).bind (Get 0) ≠ some (Element.int 3) ∧
    ReverseF Element.oneTuple
        (Tuple.ofList [Element.int 1, Element.tuple (Tuple.ofList [2, 5]), Element.int 3])
      = some (Tuple.ofList
          [Element.int 3, Element.tuple (Tuple.ofList [2, 5]), Element.int 1]) := by
  decide

/-- Claim C17. `PopBackF` does not remove the last element of a tuple with an
element that is a tuple of arity one: `PopBackF(MakeTuple(MakeTuple(6), 7))` is
ill-formed, while `PopBackF(MakeTuple(6, 7))` is `MakeTuple(6)`. -/
theorem PopBackF_oneTuple_rejected :
    PopBackF Element.oneTuple
        (Tuple.ofList [Element.tuple (Tuple.ofList [6]), Element.int 7]) = none ∧
    (PopBackF Element.oneTuple
        (Tuple.ofList [Element.tuple (Tuple.ofList [6]), Element.int 7])).bind (Get 0)
      ≠ some (Element.tuple (Tuple.ofList [6])) ∧
    PopBackF Element.oneTuple (Tuple.ofList [Element.int 6, Element.int 7])
      = some (Tuple.ofList [Element.int 6]) := by
  decide

/-- Claim C18. `IsEmpty` classifies tuple types by arity: it is true of the
zero-arity tuple type and false of every tuple type with at least one element
type. -/
theorem IsEmpty_classifies {τ : Type u} :
    IsEmpty ([] : List τ) = true ∧
    ∀ (T : τ) (Rest : List τ), IsEmpty (T :: Rest) = false := by
  exact ⟨rfl, fun _ _ => rfl⟩

/-- Claim C19. Reversal does not turn every back-push into a front-push: for
`t = MakeTuple(1)` and the temporary `x = MakeTuple(2)`, `PushBackF(t, x)` is
`(1, MakeTuple(2))` and `ReverseF` of it is ill-formed, while
`PushFrontF(ReverseF(t), x)` is `(MakeTuple(2), 1)`; for `x = 2` both sides are
`(2, 1)`. -/
theorem ReverseF_PushBackF_oneTuple_rejected :
    (PushBackF Element.oneTuple (Tuple.ofList [Element.int 1])
        ⟨ValueCategory.rvalue, Element.tuple (Tuple.ofList [2])⟩).bind
        (ReverseF Element.oneTuple) = none ∧
    (ReverseF Element.oneTuple (Tuple.ofList [Element.int 1])).bind
        (fun r => PushFrontF Element.oneTuple r
          ⟨ValueCategory.rvalue, Element.tuple (Tuple.ofList [2])⟩)
      = some (Tuple.ofList [Element.tuple (Tuple.ofList [2]), Element.int 1]) ∧
    (PushBackF Element.oneTuple (Tuple.ofList [Element.int 1])
        ⟨ValueCategory.rvalue, Element.int 2⟩).bind (ReverseF Element.oneTuple)
      = some (Tuple.ofList [Element.int 2, Element.int 1]) ∧
    (ReverseF Element.oneTuple (Tuple.ofList [Element.int 1])).bind
        (fun r => PushFrontF Element.oneTuple r ⟨ValueCategory.rvalue, Element.int 2⟩)
      = some (Tuple.ofList [Element.int 2, Element.int 1]) := by
  decide

end TupleSpec
